import Mathlib

/-!
Verification of the `tah-common` command pipeline and its numeric JSON codec.

The development shallowly embeds the Python source:

* `util.py`: the base64 text encoding used by `NumpyEncoder` (`b64encode`,
  `b64decode`), the array codec (`numpyEncode` for `NumpyEncoder.default`,
  `json_numpy_obj_hook` for the decoding hook), the display codec
  (`StringEncoder`), `recursive_update` and `mkdir_p`.
* `pipeline.py`: the live `Pipeline` class (truthiness-cached `require`,
  `run`, `save_result`, `ValidateChoices`) and the legacy pipeline kept in
  the module as a quoted block (`load_result`, `execOld` for `_execute`).

Python values are modelled by `PyVal`; machine-level buffers are lists of
byte values (`Nat` with an explicit `< 256` bound).  Fallible operations
return `Option` or `Except`.  Recursion that consumes Python stack frames is
given an explicit fuel argument, structurally decreasing so that all
definitions compute by `rfl`/`decide`.
-/

/-! ### Base64 (the subset of `base64.b64encode` / `b64decode` used by the codec) -/

/-- Character of the standard base64 alphabet at index `n` (`A-Z`, `a-z`, `0-9`, `+`, `/`). -/
def base64Char (n : Nat) : Char :=
  if n < 26 then Char.ofNat (65 + n)
  else if n < 52 then Char.ofNat (97 + (n - 26))
  else if n < 62 then Char.ofNat (48 + (n - 52))
  else if n = 62 then '+' else '/'

/-- Index of a character in the base64 alphabet, `none` for characters outside it. -/
def base64Index (c : Char) : Option Nat :=
  if 65 ≤ c.toNat ∧ c.toNat ≤ 90 then some (c.toNat - 65)
  else if 97 ≤ c.toNat ∧ c.toNat ≤ 122 then some (c.toNat - 97 + 26)
  else if 48 ≤ c.toNat ∧ c.toNat ≤ 57 then some (c.toNat - 48 + 52)
  else if c = '+' then some 62
  else if c = '/' then some 63
  else none

/-- `base64.b64encode`: encode a byte sequence in groups of three bytes into four
base64 characters, padding the final partial group with `=`. -/
def b64encode : List Nat → List Char
  | [] => []
  | [b1] => [base64Char (b1 / 4), base64Char (b1 % 4 * 16), '=', '=']
  | [b1, b2] => [base64Char (b1 / 4), base64Char (b1 % 4 * 16 + b2 / 16),
                 base64Char (b2 % 16 * 4), '=']
  | b1 :: b2 :: b3 :: rest =>
    base64Char (b1 / 4) :: base64Char (b1 % 4 * 16 + b2 / 16) ::
    base64Char (b2 % 16 * 4 + b3 / 64) :: base64Char (b3 % 64) :: b64encode rest

/-- `base64.b64decode` on well-formed base64 text: groups of four characters are
decoded to three bytes, with `=` padding allowed only at the very end.  Returns
`none` where the Python library raises (or, for its lenient treatment of junk
characters, where the result would not round-trip). -/
def b64decode : List Char → Option (List Nat)
  | [] => some []
  | c1 :: c2 :: c3 :: c4 :: rest =>
    match base64Index c1, base64Index c2 with
    | some s1, some s2 =>
      if c3 = '=' then
        if c4 = '=' ∧ rest = [] then some [s1 * 4 + s2 / 16] else none
      else
        match base64Index c3 with
        | some s3 =>
          if c4 = '=' then
            if rest = [] then some [s1 * 4 + s2 / 16, s2 % 16 * 16 + s3 / 4] else none
          else
            match base64Index c4 with
            | some s4 =>
              (b64decode rest).map
                (fun t => (s1 * 4 + s2 / 16) :: (s2 % 16 * 16 + s3 / 4) :: (s3 % 4 * 64 + s4) :: t)
            | none => none
        | none => none
    | _, _ => none
  | _ => none

/-! ### Numpy arrays and the durable codec (`util.py`, `NumpyEncoder` / `json_numpy_obj_hook`) -/

/-- A numpy array as the codec observes it: its dtype name (`str(obj.dtype)`),
its shape, and its element buffer in row-major order (the bytes of `obj.data`
after `np.ascontiguousarray` if the array was not C-contiguous).  Bytes are
`Nat` values; well-formedness (`NDArray.wf`) bounds them by 256. -/
structure NDArray where
  dtype : String
  shape : List Nat
  data : List Nat
deriving Repr, DecidableEq

/-- Item size in bytes of the numpy dtypes the codec supports (`np.dtype(name).itemsize`);
`none` for unrecognised dtype names, where `np.frombuffer` raises. -/
def dtypeItemsize : String → Option Nat
  | "float64" => some 8
  | "float32" => some 4
  | "float16" => some 2
  | "int64" => some 8
  | "int32" => some 4
  | "int16" => some 2
  | "int8" => some 1
  | "uint64" => some 8
  | "uint32" => some 4
  | "uint16" => some 2
  | "uint8" => some 1
  | "bool" => some 1
  | "complex128" => some 16
  | "complex64" => some 8
  | _ => none

/-- Number of elements of an array of the given shape (`np.prod(shape)`, with
the empty shape denoting a 0-d array of one element). -/
def prodShape : List Nat → Nat
  | [] => 1
  | n :: rest => n * prodShape rest

/-- Well-formedness of an `NDArray` value: a supported dtype, and a buffer whose
length is exactly `itemsize * number of elements`, made of byte values. -/
def NDArray.wf (a : NDArray) : Bool :=
  match dtypeItemsize a.dtype with
  | some isz => a.data.length == isz * prodShape a.shape && a.data.all (· < 256)
  | none => false

/-- A Python value as the pipeline and the codec observe it.  JSON-native values
are structural; `ndarray` is a numpy array; `other` is any further object,
carrying the text `repr` of it; `encoderObj` is a `json.JSONEncoder` instance
(the value `json.JSONEncoder(self, obj)` evaluates to at `util.py:103`). -/
inductive PyVal where
  | jnull
  | jbool (b : Bool)
  | jint (n : Int)
  | jstr (s : String)
  | jlist (l : List PyVal)
  | jdict (l : List (String × PyVal))
  | ndarray (a : NDArray)
  | other (r : String)
  | encoderObj

/-- Lookup in a Python dict, modelled as an association list with unique keys
(first match wins). -/
def lookupKey {α : Type} : List (String × α) → String → Option α
  | [], _ => none
  | (k0, v0) :: rest, k => if k0 = k then some v0 else lookupKey rest k

/-- Python dict assignment `d[k] = v`: replace the value of an existing key in
place, otherwise append the new key at the end. -/
def setKey {α : Type} : List (String × α) → String → α → List (String × α)
  | [], k, v => [(k, v)]
  | (k0, v0) :: rest, k, v => if k0 = k then (k0, v) :: rest else (k0, v0) :: setKey rest k v

/-- `NumpyEncoder.default` on an `np.ndarray` (`util.py:91-101`): a dict holding
the base64-encoded contiguous buffer, the dtype name and the shape. -/
def numpyEncode (a : NDArray) : PyVal :=
  .jdict [("__ndarray__", .jstr (String.mk (b64encode a.data))),
          ("dtype", .jstr a.dtype),
          ("shape", .jlist (a.shape.map (fun (n : Nat) => .jint (n : Int))))]

/-- Shape field as decoded from JSON: a list of non-negative integers. -/
def toShape : List PyVal → Option (List Nat)
  | [] => some []
  | .jint n :: rest => if n < 0 then none else (toShape rest).map (n.toNat :: ·)
  | _ => none

/-- `json_numpy_obj_hook` (`util.py:117-134`): a decoded dict carrying the
`__ndarray__` marker is turned back into an array via
`np.frombuffer(base64.b64decode(data), dtype).reshape(shape)`; any other value
is returned unchanged.  `none` models the exceptions `b64decode`, `frombuffer`
(unknown dtype, buffer size not a multiple of the item size) and `reshape`
(element count mismatch) raise. -/
def json_numpy_obj_hook (v : PyVal) : Option PyVal :=
  match v with
  | .jdict d =>
    match lookupKey d "__ndarray__" with
    | some (.jstr s) =>
      match b64decode s.data, lookupKey d "dtype", lookupKey d "shape" with
      | some bytes, some (.jstr dt), some (.jlist shp) =>
        match dtypeItemsize dt, toShape shp with
        | some isz, some shape =>
          if bytes.length % isz = 0 ∧ bytes.length / isz = prodShape shape
          then some (.ndarray ⟨dt, shape, bytes⟩) else none
        | _, _ => none
      | _, _, _ => none
    | some _ => none
    | none => some (.jdict d)
  | w => some w

/-! ### Durable serialisation and deserialisation of whole values

`json_dumps(v)` followed by `json_loads` (with the default
`cls=NumpyEncoder` and `object_hook=json_numpy_obj_hook`, `util.py:137-223`)
is modelled at the level of the JSON value tree: the text layer (printing
and re-parsing JSON-native scalars, strings, lists and string-keyed
mappings) is the identity and is elided.  `treeEncode` produces the tree
`json.dumps` serialises (arrays replaced by their marker dicts; `none` for
values the durable encoder does not support), and `treeDecode` replays
`json.loads`, which applies the object hook to every decoded dict,
innermost first. -/

mutual

def treeEncode : PyVal → Option PyVal
  | .jnull => some .jnull
  | .jbool b => some (.jbool b)
  | .jint n => some (.jint n)
  | .jstr s => some (.jstr s)
  | .jlist l => (treeEncodeList l).map .jlist
  | .jdict l => (treeEncodeDict l).map .jdict
  | .ndarray a => some (numpyEncode a)
  | .other _ => none
  | .encoderObj => none
termination_by v => sizeOf v

def treeEncodeList : List PyVal → Option (List PyVal)
  | [] => some []
  | v :: rest =>
    match treeEncode v, treeEncodeList rest with
    | some w, some ws => some (w :: ws)
    | _, _ => none
termination_by l => sizeOf l

def treeEncodeDict : List (String × PyVal) → Option (List (String × PyVal))
  | [] => some []
  | (k, v) :: rest =>
    match treeEncode v, treeEncodeDict rest with
    | some w, some ws => some ((k, w) :: ws)
    | _, _ => none
termination_by l => sizeOf l

end

mutual

def treeDecode : PyVal → Option PyVal
  | .jlist l => (treeDecodeList l).map .jlist
  | .jdict l =>
    match treeDecodeDict l with
    | some l2 => json_numpy_obj_hook (.jdict l2)
    | none => none
  | v => some v
termination_by v => sizeOf v

def treeDecodeList : List PyVal → Option (List PyVal)
  | [] => some []
  | v :: rest =>
    match treeDecode v, treeDecodeList rest with
    | some w, some ws => some (w :: ws)
    | _, _ => none
termination_by l => sizeOf l

def treeDecodeDict : List (String × PyVal) → Option (List (String × PyVal))
  | [] => some []
  | (k, v) :: rest =>
    match treeDecode v, treeDecodeDict rest with
    | some w, some ws => some ((k, w) :: ws)
    | _, _ => none
termination_by l => sizeOf l

end

/-! `goodVal`: supported values for the durable codec round trip: JSON-native
scalars, strings, lists, string-keyed mappings and well-formed arrays, where
no mapping uses the reserved marker key `__ndarray__` of the durable array
format (such a mapping is re-interpreted by the decoding hook). -/

mutual

def goodVal : PyVal → Bool
  | .jnull => true
  | .jbool _ => true
  | .jint _ => true
  | .jstr _ => true
  | .jlist l => goodValList l
  | .jdict l => !(lookupKey l "__ndarray__").isSome && goodValDict l
  | .ndarray a => a.wf
  | .other _ => false
  | .encoderObj => false
termination_by v => sizeOf v

def goodValList : List PyVal → Bool
  | [] => true
  | v :: rest => goodVal v && goodValList rest
termination_by l => sizeOf l

def goodValDict : List (String × PyVal) → Bool
  | [] => true
  | (_, v) :: rest => goodVal v && goodValDict rest
termination_by l => sizeOf l

end

/-! ### The two JSON encoders as the serialiser drives them (`util.py:73-114`)

`json.dumps(obj, cls=...)` walks the value; natively serialisable values are
emitted structurally, and any other value is passed to the encoder class\'s
`default` method, whose result is then serialised in turn.  The walk is
modelled with an explicit fuel (the Python recursion limit): `stackOverflow`
is the state a run that keeps recursing forever ends in. -/

/-- The JSON document tree produced by serialisation. -/
inductive JTree where
  | jnull
  | jb (b : Bool)
  | ji (n : Int)
  | js (s : String)
  | jarr (l : List JTree)
  | jobj (l : List (String × JTree))

inductive SerErr where
  | typeErr
  | stackOverflow
deriving DecidableEq

/-- The text `repr(obj)` of a value, used by the display encoder\'s fallback.
Only non-serialisable values ever reach it; `other` carries its repr. -/
def reprOf : PyVal → String
  | .other r => r
  | .ndarray _ => "array(...)"
  | .encoderObj => "<json.encoder.JSONEncoder object>"
  | _ => "<value>"

/-- `json.JSONEncoder.default`: unconditionally raises
`TypeError(repr(o) + " is not JSON serializable")`. -/
def JSONEncoder_default (_ : PyVal) : Except Unit PyVal := .error ()

/-- `NumpyEncoder.default` as written (`util.py:81-103`): an `ndarray` becomes
its marker dict; for every other value the method executes
`return json.JSONEncoder(self, obj)`, which CONSTRUCTS a new encoder object
(passing `self` and `obj` as the `skipkeys` / `ensure_ascii` arguments) and
returns it — it does not call the base `default` and does not raise, despite
the comment above it ("Let the base class default method raise the
TypeError"). -/
def NumpyEncoder_default : PyVal → Except Unit PyVal
  | .ndarray a => .ok (numpyEncode a)
  | _ => .ok .encoderObj

/-- `StringEncoder.default` (`util.py:106-114`): try the base default; on its
`TypeError`, degrade to `repr(obj)`. -/
def StringEncoder_default (v : PyVal) : Except Unit PyVal :=
  match JSONEncoder_default v with
  | .error () => .ok (.jstr (reprOf v))
  | .ok w => .ok w

mutual

def serializeWith (default : PyVal → Except Unit PyVal) : Nat → PyVal → Except SerErr JTree
  | _, .jnull => .ok .jnull
  | _, .jbool b => .ok (.jb b)
  | _, .jint n => .ok (.ji n)
  | _, .jstr s => .ok (.js s)
  | fuel+1, .jlist l => (serializeList default fuel l).map .jarr
  | fuel+1, .jdict l => (serializeDict default fuel l).map .jobj
  | fuel+1, v =>
    match default v with
    | .error () => .error .typeErr
    | .ok w => serializeWith default fuel w
  | 0, _ => .error .stackOverflow

def serializeList (default : PyVal → Except Unit PyVal) : Nat → List PyVal → Except SerErr (List JTree)
  | _, [] => .ok []
  | fuel+1, v :: rest =>
    match serializeWith default fuel v, serializeList default fuel rest with
    | .ok w, .ok ws => .ok (w :: ws)
    | .error e, _ => .error e
    | _, .error e => .error e
  | 0, _ :: _ => .error .stackOverflow

def serializeDict (default : PyVal → Except Unit PyVal) : Nat → List (String × PyVal) → Except SerErr (List (String × JTree))
  | _, [] => .ok []
  | fuel+1, (k, v) :: rest =>
    match serializeWith default fuel v, serializeDict default fuel rest with
    | .ok w, .ok ws => .ok ((k, w) :: ws)
    | .error e, _ => .error e
    | _, .error e => .error e
  | 0, _ :: _ => .error .stackOverflow

end

/-! ### `recursive_update` (`util.py:239-258`), value semantics

The merge itself, on tree-shaped dictionary values (configurations parsed
from a JSON document are trees).  Reference semantics — in-place mutation and
aliasing — is modelled separately below with an explicit heap. -/

mutual

def recursive_update : List (String × PyVal) → List (String × PyVal) → List (String × PyVal)
  | s, [] => s
  | s, (k, v) :: rest => recursive_update (updateEntry s k v) rest
termination_by _ o => sizeOf o

/-- One iteration of the `recursive_update` loop: copy the value outright
unless the key maps to a dict on both sides, in which case merge recursively. -/
def updateEntry (s : List (String × PyVal)) (k : String) (v : PyVal) : List (String × PyVal) :=
  match lookupKey s k, v with
  | some (.jdict sd), .jdict od => setKey s k (.jdict (recursive_update sd od))
  | _, _ => setKey s k v
termination_by sizeOf v

end

/-- The merged value `recursive_update` leaves at one key, as a function of the
two sides: the recursive merge when both are dicts, the overriding value
otherwise. -/
def mergeAt : Option PyVal → PyVal → PyVal
  | some (.jdict dd), .jdict od => .jdict (recursive_update dd od)
  | _, v => v

/-! ### `recursive_update`, reference semantics

Python dictionaries are mutable objects; `recursive_update(self, other)`
mutates `self` in place and `return self` hands the same object back.  The
heap model: dict objects live at numeric addresses, dict entries hold either
immutable atoms or references to other dicts (`isinstance(value, dict)` holds
exactly of references).  Fuel models the interpreter stack. -/

inductive HVal where
  | atom (v : Int)
  | ref (a : Nat)
deriving DecidableEq

abbrev HDict := List (String × HVal)

abbrev Heap := List (Nat × HDict)

def lookupAddr : Heap → Nat → Option HDict
  | [], _ => none
  | (a0, d0) :: rest, a => if a0 = a then some d0 else lookupAddr rest a

def setAddr : Heap → Nat → HDict → Heap
  | [], a, d => [(a, d)]
  | (a0, d0) :: rest, a, d => if a0 = a then (a0, d) :: rest else (a0, d0) :: setAddr rest a d

mutual

/-- `recursive_update(self, other)` over the heap: iterate over the entries of
the dict at `b` and update the dict at `a` in place; returns the address of
`self` (the function ends in `return self`). -/
def heapRecUpdate : Nat → Heap → Nat → Nat → Option (Heap × Nat)
  | 0, _, _, _ => none
  | fuel+1, h, a, b =>
    match lookupAddr h b with
    | none => none
    | some od =>
      match heapFold fuel h a od with
      | some h2 => some (h2, a)
      | none => none

/-- The `for key, value in other.iteritems()` loop, folding over a snapshot of
the entries of `other`. -/
def heapFold : Nat → Heap → Nat → HDict → Option Heap
  | _, h, _, [] => some h
  | 0, _, _, _ :: _ => none
  | fuel+1, h, a, (k, v) :: rest =>
    match lookupAddr h a with
    | none => none
    | some sd =>
      match lookupKey sd k, v with
      | some (.ref ra), .ref rb =>
        match heapRecUpdate fuel h ra rb with
        | some (h2, _) => heapFold fuel h2 a rest
        | none => none
      | _, _ => heapFold fuel (setAddr h a (setKey sd k v)) a rest

end

/-- The observable value of key `k` of the dict object at address `a`. -/
def heapVal (h : Heap) (a : Nat) (k : String) : Option HVal :=
  match lookupAddr h a with
  | some d => lookupKey d k
  | none => none

/-- No dict in the heap holds a reference to address `a`: the dict at `a` is
not aliased from anywhere (in particular not self-referential and not shared
with the other side of the merge). -/
def noRef (h : Heap) (a : Nat) : Prop :=
  ∀ entry ∈ h, ∀ kv ∈ entry.2, kv.2 ≠ HVal.ref a

instance (h : Heap) (a : Nat) : Decidable (noRef h a) := by
  unfold noRef; infer_instance

/-! ### The live `Pipeline` (`pipeline.py:20-197`)

Commands are instance methods named `run_*`; `require` executes a command
unless its stored result is truthy and `force` is off.  A command body may
call `self.require` on other commands before producing its value: an
implementation is modelled by the names it requires and the value it returns.
Fuel models the Python call stack; `executed` is a ghost trace of the
implementations that were entered, in order. -/

/-- Python truthiness of a stored value (`not self.result[command]`).  For
numpy arrays: an empty array is falsy, an array of more than one element
raises `ValueError`, and a one-element array\'s truth depends on the numeric
interpretation of its buffer, which this byte-level model leaves undefined
(`none`); no verified property depends on the one-element case. -/
def pyTruth : PyVal → Option Bool
  | .jnull => some false
  | .jbool b => some b
  | .jint n => some (decide (n ≠ 0))
  | .jstr s => some (decide (s ≠ ""))
  | .jlist l => some (!l.isEmpty)
  | .jdict l => some (!l.isEmpty)
  | .ndarray a => if prodShape a.shape = 0 then some false else none
  | .other _ => some true
  | .encoderObj => some true

/-- A command implementation: the commands it requires while running, and the
value it returns. -/
structure CmdImpl where
  deps : List String
  ret : PyVal

abbrev Registry := List (String × CmdImpl)

/-- Pipeline state: the result store `self.result`, the `force` flag, and the
ghost trace of implementations entered. -/
structure PState where
  result : List (String × PyVal)
  force : Bool
  executed : List String

inductive PyErr where
  | keyErr (name : String)
  | valueErr
  | assertionErr (name : String)
  | stackOverflow
deriving DecidableEq

mutual

/-- `Pipeline.require` (`pipeline.py:114-137`): re-execute unless the command
has a truthy stored result and `force` is off; always return
`self.result[command]` as left by the branch taken. -/
def require (reg : Registry) : Nat → PState → String → Except PyErr (PState × PyVal)
  | 0, _, _ => .error .stackOverflow
  | fuel+1, st, c =>
    match lookupKey st.result c with
    | some v =>
      match pyTruth v with
      | none => .error .valueErr
      | some t => if !t || st.force then requireExec reg fuel st c else .ok (st, v)
    | none => requireExec reg fuel st c

/-- The execute branch of `require`: `self.result[command] =
self.available_commands[command]()` — the registry lookup raises `KeyError`
for an unknown name before anything runs; the call then requires the
command\'s dependencies and the returned value is stored unconditionally. -/
def requireExec (reg : Registry) : Nat → PState → String → Except PyErr (PState × PyVal)
  | 0, _, _ => .error .stackOverflow
  | fuel+1, st, c =>
    match lookupKey reg c with
    | none => .error (.keyErr c)
    | some impl =>
      match requireDeps reg fuel { st with executed := st.executed ++ [c] } impl.deps with
      | .error e => .error e
      | .ok st2 => .ok ({ st2 with result := setKey st2.result c impl.ret }, impl.ret)

/-- Require each dependency in order, threading the state. -/
def requireDeps (reg : Registry) : Nat → PState → List String → Except PyErr PState
  | _, st, [] => .ok st
  | 0, _, _ :: _ => .error .stackOverflow
  | fuel+1, st, d :: rest =>
    match require reg fuel st d with
    | .error e => .error e
    | .ok (st2, _) => requireDeps reg fuel st2 rest

end

/-- `available_commands` (`pipeline.py:41-46`): the names from `dir(self)`
that start with `run_`, keyed by the name with that four-character prefix
stripped (`name[4:]`). -/
def isRunMethod (n : String) : Bool := n.data.take 4 == "run_".data

def stripRun (n : String) : String := String.mk (n.data.drop 4)

def availableCommands (methods : List String) : List String :=
  (methods.filter isRunMethod).map stripRun

/-- `ValidateChoices.__call__` (`pipeline.py:10-17`): assert each positional
command is among the registered names, failing with the offending name. -/
def validateChoices (metavar : List String) : List String → Except PyErr Unit
  | [] => .ok ()
  | item :: rest =>
    if item ∈ metavar then validateChoices metavar rest
    else .error (.assertionErr item)

/-- The `for command in commands: ... self.require(command)` loop of
`Pipeline.run` (`pipeline.py:104-106`; the `np.random.seed` call is a pure
side effect and is elided).  Returns the error that aborted the loop (if
any), the state reached before the aborting command, and the trace of
commands `require` was invoked on from the loop. -/
def runLoop (reg : Registry) (fuel : Nat) : PState → List String → Option PyErr × PState × List String
  | st, [] => (none, st, [])
  | st, c :: rest =>
    match require reg fuel st c with
    | .error e => (some e, st, [c])
    | .ok (st2, _) =>
      match runLoop reg fuel st2 rest with
      | (e, st3, tr) => (e, st3, c :: tr)

/-- Outcome of a whole `Pipeline.run`: the aborting error if any, the final
state, whether `save_result` was reached (the dump is only attempted after
every command succeeded), and the commands the run loop passed to `require`. -/
structure RunResult where
  err : Option PyErr
  final : PState
  dumped : Bool
  required : List String

/-- `commands = self.commands or self.available_commands` followed by the run
loop and (on success) `save_result` (`pipeline.py:90-109`): an empty command
list is falsy, so every available command runs. -/
def runCore (reg : Registry) (fuel : Nat) (avail : List String) (cs : List String)
    (store0 : List (String × PyVal)) (force : Bool) : RunResult :=
  let effective := if cs.isEmpty then avail else cs
  match runLoop reg fuel ⟨store0, force, []⟩ effective with
  | (some e, st, tr) => ⟨some e, st, false, tr⟩
  | (none, st, tr) => ⟨none, st, true, tr⟩

/-- `Pipeline.run` (`pipeline.py:90-112`): when `self.commands` is unset
(`preset = none`) the arguments are parsed first and `ValidateChoices` checks
every requested name against the registry before anything executes; a preset
command list skips that validation. -/
def runFull (reg : Registry) (methods : List String) (fuel : Nat)
    (preset : Option (List String)) (cli : List String)
    (store0 : List (String × PyVal)) (force : Bool) : RunResult :=
  let avail := availableCommands methods
  match preset with
  | none =>
    match validateChoices avail cli with
    | .error e => ⟨some e, ⟨store0, force, []⟩, false, []⟩
    | .ok () => runCore reg fuel avail cli store0 force
  | some cs => runCore reg fuel avail cs store0 force

/-! ### The legacy pipeline kept in `pipeline.py` as a quoted block -/

/-- `_load_result` (`pipeline.py:278-294`): load the previous result file if
it exists (else start empty), then overwrite the `configuration` entry with
the current configuration.  No hash is computed and nothing is compared or
discarded: every previously stored entry is kept as it was. -/
def load_result (file : Option (List (String × PyVal))) (configuration : PyVal) :
    List (String × PyVal) :=
  setKey (match file with | some r => r | none => []) "configuration" configuration

/-- `_execute` (`pipeline.py:362-392`): unknown commands raise `KeyError`; a
command present in the store is returned as a cache hit whenever `force` is
off (presence, not content, decides); otherwise the implementation runs and a
non-`None` result is stored.  An implementation is modelled by the value it
returns (`_commands[command]` holds `(fun, args)`; the call
`fun(self._get_configuration(command), *args)` is modelled as that value).
The third component reports whether the implementation ran. -/
def execOld (reg : List (String × PyVal)) (force : Bool) (st : List (String × PyVal))
    (c : String) : Except PyErr (List (String × PyVal) × PyVal × Bool) :=
  match lookupKey reg c with
  | none => .error (.keyErr c)
  | some r =>
    match lookupKey st c, force with
    | some v, false => .ok (st, v, false)
    | _, _ =>
      match r with
      | .jnull => .ok (st, r, true)
      | _ => .ok (setKey st c r, r, true)

/-! ### The filesystem, `mkdir_p` and `Pipeline.save_result`

Paths are lists of components; the filesystem is the set of existing
directories plus the files with their contents. -/

inductive FsErr where
  | eexist
  | eisdir
  | enotdir
  | enoent
  | valueErr
deriving DecidableEq

abbrev FsPath := List String

structure FS where
  dirs : List FsPath
  files : List (FsPath × String)
deriving DecidableEq

def FS.isFile (fs : FS) (p : FsPath) : Bool := fs.files.any (fun f => f.1 == p)

/-- All non-empty prefixes of a path, the path itself included. -/
def fsPrefixes (p : FsPath) : List FsPath :=
  (List.range p.length).map (fun n => p.take (n + 1))

/-- `os.makedirs(p)`: create the path and its missing ancestors as
directories; `OSError(EEXIST)` if the path already exists (as directory or
file), `ENOTDIR` if an ancestor exists as a file. -/
def makedirs (fs : FS) (p : FsPath) : Except FsErr FS :=
  if fs.dirs.contains p || fs.isFile p then .error .eexist
  else if (fsPrefixes p).any (fun q => fs.isFile q) then .error .enotdir
  else .ok { fs with dirs := fs.dirs ++ (fsPrefixes p).filter (fun q => !fs.dirs.contains q) }

/-- `mkdir_p` (`util.py:261-276`): swallow `EEXIST` only when the path is a
directory, re-raise anything else. -/
def mkdir_p (fs : FS) (p : FsPath) : Except FsErr FS :=
  match makedirs fs p with
  | .error .eexist => if fs.dirs.contains p then .ok fs else .error .eexist
  | r => r

/-- `open(p, "w")` followed by writing `content`: fails with `EISDIR` if a
directory sits at the path, `ENOENT` if the parent directory is missing. -/
def openWrite (fs : FS) (p : FsPath) (content : String) : Except FsErr FS :=
  if fs.dirs.contains p then .error .eisdir
  else if 2 ≤ p.length ∧ ¬ (p.take (p.length - 1)) ∈ fs.dirs then .error .enoent
  else .ok { fs with files := (p, content) :: fs.files.filter (fun f => f.1 ≠ p) }

/-- `Pipeline.save_result` (`pipeline.py:139-153`): resolve the output path
(`ValueError` when none); then `mkdir_p(output_file)` — on the output file
path itself, not on its parent directory — and `json_dump(self.result,
output_file)`, which opens that same path for writing.  `data` stands for the
durable JSON serialisation of the store. -/
def save_result (fs : FS) (output_file : Option FsPath) (data : String) : Except FsErr FS :=
  match output_file with
  | none => .error .valueErr
  | some p =>
    match mkdir_p fs p with
    | .error e => .error e
    | .ok fs2 => openWrite fs2 p data

-- MARKER: definitions end here; only theorems below.

/-! ## Theorems -/

/-- Decoding inverts encoding on the base64 alphabet. -/
theorem base64Index_base64Char : ∀ n, n < 64 → base64Index (base64Char n) = some n := by decide

/-- The encoder never emits the padding character inside a sextet position. -/
theorem base64Char_ne_pad : ∀ n, n < 64 → base64Char n ≠ '=' := by decide

/-- Base64 round-trip on byte sequences. -/
theorem b64decode_b64encode (l : List Nat) (h : ∀ b ∈ l, b < 256) :
    b64decode (b64encode l) = some l := by
  induction l using b64encode.induct with
  | case1 => rfl
  | case2 b1 =>
    have hb1 : b1 < 256 := h b1 (by simp)
    simp only [b64encode, b64decode,
      base64Index_base64Char _ (by omega : b1 / 4 < 64),
      base64Index_base64Char _ (by omega : b1 % 4 * 16 < 64)]
    simp only [if_pos rfl, and_self, if_true, Option.some.injEq, List.cons.injEq, and_true]
    omega
  | case3 b1 b2 =>
    have hb1 : b1 < 256 := h b1 (by simp)
    have hb2 : b2 < 256 := h b2 (by simp)
    simp only [b64encode, b64decode,
      base64Index_base64Char _ (by omega : b1 / 4 < 64),
      base64Index_base64Char _ (by omega : b1 % 4 * 16 + b2 / 16 < 64),
      base64Index_base64Char _ (by omega : b2 % 16 * 4 < 64),
      base64Char_ne_pad _ (by omega : b2 % 16 * 4 < 64), if_false, if_true,
      Option.some.injEq, List.cons.injEq, and_true]
    omega
  | case4 b1 b2 b3 rest ih =>
    have hb1 : b1 < 256 := h b1 (by simp)
    have hb2 : b2 < 256 := h b2 (by simp)
    have hb3 : b3 < 256 := h b3 (by simp)
    have hrest : ∀ b ∈ rest, b < 256 := fun b hb => h b (by simp [hb])
    simp only [b64encode, b64decode,
      base64Index_base64Char _ (by omega : b1 / 4 < 64),
      base64Index_base64Char _ (by omega : b1 % 4 * 16 + b2 / 16 < 64),
      base64Index_base64Char _ (by omega : b2 % 16 * 4 + b3 / 64 < 64),
      base64Index_base64Char _ (by omega : b3 % 64 < 64),
      base64Char_ne_pad _ (by omega : b2 % 16 * 4 + b3 / 64 < 64),
      base64Char_ne_pad _ (by omega : b3 % 64 < 64), if_false, if_true, ih hrest,
      Option.map_some', Option.some.injEq, List.cons.injEq, and_true]
    omega

/-- Decoding the shape field of an encoded array recovers the original shape. -/
theorem toShape_map_jint (l : List Nat) :
    toShape (l.map (fun (n : Nat) => PyVal.jint (n : Int))) = some l := by
  induction l with
  | nil => rfl
  | cons n rest ih =>
    simp only [List.map_cons, toShape, ih, Option.map_some']
    rw [if_neg (by omega)]
    simp

/-- Every dtype the codec recognises has a positive item size. -/
theorem dtypeItemsize_pos (s : String) (n : Nat) (h : dtypeItemsize s = some n) : 0 < n := by
  unfold dtypeItemsize at h
  split at h <;> simp_all <;> omega

/-- Core array round trip: the decoding hook inverts `NumpyEncoder.default`
on every well-formed array. -/
theorem json_numpy_obj_hook_numpyEncode (a : NDArray) (hwf : a.wf = true) :
    json_numpy_obj_hook (numpyEncode a) = some (.ndarray a) := by
  unfold NDArray.wf at hwf
  rcases hisz : dtypeItemsize a.dtype with _ | isz <;> rw [hisz] at hwf
  · exact absurd hwf (by simp)
  simp only [Bool.and_eq_true, beq_iff_eq, List.all_eq_true, decide_eq_true_eq] at hwf
  obtain ⟨hlen, hbytes⟩ := hwf
  have hpos : 0 < isz := dtypeItemsize_pos _ _ hisz
  have hmod : a.data.length % isz = 0 := by simp [hlen, Nat.mul_mod_right]
  have hdiv : a.data.length / isz = prodShape a.shape := by
    simp [hlen, Nat.mul_div_cancel_left _ hpos]
  simp [numpyEncode, json_numpy_obj_hook, lookupKey, hisz,
    b64decode_b64encode _ hbytes, toShape_map_jint, hmod, hdiv]

/-- Membership form of `goodValList`. -/
theorem goodValList_mem (l : List PyVal) (h : goodValList l = true) :
    ∀ v ∈ l, goodVal v = true := by
  induction l with
  | nil => intro v hv; cases hv
  | cons w rest ih =>
    simp only [goodValList, Bool.and_eq_true] at h
    intro v hv
    rcases hv with _ | hv
    · exact h.1
    · exact ih h.2 v (by assumption)

/-- Membership form of `goodValDict`. -/
theorem goodValDict_mem (l : List (String × PyVal)) (h : goodValDict l = true) :
    ∀ kv ∈ l, goodVal kv.2 = true := by
  induction l with
  | nil => intro kv hkv; cases hkv
  | cons w rest ih =>
    obtain ⟨k, v⟩ := w
    simp only [goodValDict, Bool.and_eq_true] at h
    intro kv hkv
    rcases hkv with _ | hkv
    · exact h.1
    · exact ih h.2 kv (by assumption)

/-- Round trip for the elements of a list, given a round trip for each. -/
theorem treeRoundList (l : List PyVal)
    (h : ∀ v ∈ l, (treeEncode v).bind treeDecode = some v) :
    (treeEncodeList l).bind treeDecodeList = some l := by
  induction l with
  | nil => simp [treeEncodeList, treeDecodeList]
  | cons v rest ih =>
    obtain ⟨w, hw, hwd⟩ := Option.bind_eq_some.mp (h v (by simp))
    obtain ⟨ws, hws, hwsd⟩ :=
      Option.bind_eq_some.mp (ih (fun u hu => h u (by simp [hu])))
    simp [treeEncodeList, hw, hws, treeDecodeList, hwd, hwsd]

/-- Round trip for the values of a dict, given a round trip for each. -/
theorem treeRoundDict (l : List (String × PyVal))
    (h : ∀ kv ∈ l, (treeEncode kv.2).bind treeDecode = some kv.2) :
    (treeEncodeDict l).bind treeDecodeDict = some l := by
  induction l with
  | nil => simp [treeEncodeDict, treeDecodeDict]
  | cons kv rest ih =>
    obtain ⟨k, v⟩ := kv
    obtain ⟨w, hw, hwd⟩ := Option.bind_eq_some.mp (h (k, v) (by simp))
    obtain ⟨ws, hws, hwsd⟩ :=
      Option.bind_eq_some.mp (ih (fun u hu => h u (by simp [hu])))
    simp [treeEncodeDict, hw, hws, treeDecodeDict, hwd, hwsd]

/-- The decoder leaves the integer shape list of an encoded array unchanged. -/
theorem treeDecodeList_jint (l : List Nat) :
    treeDecodeList (l.map (fun (n : Nat) => PyVal.jint (n : Int))) =
      some (l.map (fun (n : Nat) => PyVal.jint (n : Int))) := by
  induction l with
  | nil => simp [treeDecodeList]
  | cons n rest ih => simp [treeDecodeList, treeDecode, ih]

/-- Size-bounded induction step for the durable round trip. -/
theorem durable_round_trip_aux :
    ∀ n, ∀ v : PyVal, sizeOf v ≤ n → goodVal v = true →
      (treeEncode v).bind treeDecode = some v := by
  intro n
  induction n with
  | zero => intro v hsz _; cases v <;> simp at hsz
  | succ n ih =>
    intro v hsz hgood
    cases v with
    | jnull => simp [treeEncode, treeDecode]
    | jbool b => simp [treeEncode, treeDecode]
    | jint m => simp [treeEncode, treeDecode]
    | jstr s => simp [treeEncode, treeDecode]
    | jlist l =>
      have hl : sizeOf l ≤ n := by
        have := PyVal.jlist.sizeOf_spec l
        omega
      have hmem : ∀ w ∈ l, (treeEncode w).bind treeDecode = some w := by
        intro w hw
        have hs := List.sizeOf_lt_of_mem hw
        exact ih w (by omega) (goodValList_mem l (by simpa [goodVal] using hgood) w hw)
      obtain ⟨ws, hws, hwsd⟩ := Option.bind_eq_some.mp (treeRoundList l hmem)
      simp [treeEncode, hws, treeDecode, hwsd]
    | jdict l =>
      have hl : sizeOf l ≤ n := by
        have := PyVal.jdict.sizeOf_spec l
        omega
      simp only [goodVal, Bool.and_eq_true, Bool.not_eq_true'] at hgood
      obtain ⟨hmarker, hvals⟩ := hgood
      have hmem : ∀ kv ∈ l, (treeEncode kv.2).bind treeDecode = some kv.2 := by
        intro kv hkv
        have hs := List.sizeOf_lt_of_mem hkv
        have hs2 : sizeOf kv.2 < sizeOf kv := by
          obtain ⟨k, v⟩ := kv
          simp
        exact ih kv.2 (by omega) (goodValDict_mem l hvals kv hkv)
      obtain ⟨ws, hws, hwsd⟩ := Option.bind_eq_some.mp (treeRoundDict l hmem)
      have hnone : lookupKey l "__ndarray__" = none :=
        Option.not_isSome_iff_eq_none.mp (by simp [hmarker])
      simp [treeEncode, hws, treeDecode, hwsd, json_numpy_obj_hook, hnone]
    | ndarray arr =>
      have hwf : arr.wf = true := by simpa [goodVal] using hgood
      have hdec : treeDecodeDict
          [("__ndarray__", PyVal.jstr (String.mk (b64encode arr.data))),
           ("dtype", PyVal.jstr arr.dtype),
           ("shape", PyVal.jlist (arr.shape.map (fun (n : Nat) => PyVal.jint (n : Int))))] =
          some [("__ndarray__", PyVal.jstr (String.mk (b64encode arr.data))),
           ("dtype", PyVal.jstr arr.dtype),
           ("shape", PyVal.jlist (arr.shape.map (fun (n : Nat) => PyVal.jint (n : Int))))] := by
        simp [treeDecodeDict, treeDecode, treeDecodeList_jint]
      have hhook := json_numpy_obj_hook_numpyEncode arr hwf
      simp only [numpyEncode] at hhook
      simp [treeEncode, numpyEncode, treeDecode, hdec, hhook]
    | other r => simp [goodVal] at hgood
    | encoderObj => simp [goodVal] at hgood

/-- C1 counterexample: the round trip `decode(encode(v)) == v` fails for the
supported value `v = {"__ndarray__": "AAAA", "dtype": "uint8", "shape": [3]}`,
a plain mapping of strings and integers: the durable encoder passes it through
unchanged, but on decoding the object hook re-interprets it as the 3-element
`uint8` array of zero bytes, so decoding yields a different value. -/
theorem C1_cex :
    (treeEncode (.jdict [("__ndarray__", .jstr "AAAA"), ("dtype", .jstr "uint8"),
        ("shape", .jlist [.jint 3])])).bind treeDecode =
      some (.ndarray ⟨"uint8", [3], [0, 0, 0]⟩) ∧
    PyVal.ndarray ⟨"uint8", [3], [0, 0, 0]⟩ ≠
      .jdict [("__ndarray__", .jstr "AAAA"), ("dtype", .jstr "uint8"),
        ("shape", .jlist [.jint 3])] := by
  constructor
  · have h1 : treeEncode (.jdict [("__ndarray__", .jstr "AAAA"), ("dtype", .jstr "uint8"),
        ("shape", .jlist [.jint 3])]) = some (.jdict [("__ndarray__", .jstr "AAAA"),
        ("dtype", .jstr "uint8"), ("shape", .jlist [.jint 3])]) := by
      simp [treeEncode, treeEncodeDict, treeEncodeList]
    have h2 : treeDecodeDict [("__ndarray__", PyVal.jstr "AAAA"), ("dtype", PyVal.jstr "uint8"),
        ("shape", PyVal.jlist [PyVal.jint 3])] = some [("__ndarray__", PyVal.jstr "AAAA"),
        ("dtype", PyVal.jstr "uint8"), ("shape", PyVal.jlist [PyVal.jint 3])] := by
      simp [treeDecodeDict, treeDecodeList, treeDecode]
    have h3 : json_numpy_obj_hook (.jdict [("__ndarray__", .jstr "AAAA"),
        ("dtype", .jstr "uint8"), ("shape", .jlist [.jint 3])]) =
        some (.ndarray ⟨"uint8", [3], [0, 0, 0]⟩) := rfl
    rw [h1, Option.some_bind, treeDecode, h2]
    exact h3
  · exact fun h => PyVal.noConfusion h

/-- C1 (amended): for every supported value — JSON-native scalars, strings,
lists, string-keyed mappings and well-formed numpy arrays of a supported
element type — none of whose mappings uses the reserved marker key
`__ndarray__`, decoding the durable encoding yields a value observably equal
to the original: `decode(encode(v)) = v`, with arrays preserving element
bytes, shape and dtype. -/
theorem C1_round_trip_no_marker (v : PyVal) (h : goodVal v = true) :
    (treeEncode v).bind treeDecode = some v :=
  durable_round_trip_aux (sizeOf v) v le_rfl h

/-- Witness for C1 at a mapping holding a 2x2 `uint8` array and a string. -/
theorem C1_round_trip_witness :
    goodVal (.jdict [("data", .ndarray ⟨"uint8", [2, 2], [1, 2, 3, 255]⟩),
        ("name", .jstr "x")]) = true ∧
    (treeEncode (.jdict [("data", .ndarray ⟨"uint8", [2, 2], [1, 2, 3, 255]⟩),
        ("name", .jstr "x")])).bind treeDecode =
      some (.jdict [("data", .ndarray ⟨"uint8", [2, 2], [1, 2, 3, 255]⟩),
        ("name", .jstr "x")]) :=
  ⟨by simp [goodVal, goodValDict, goodValList, lookupKey, NDArray.wf, dtypeItemsize, prodShape],
   C1_round_trip_no_marker _
     (by simp [goodVal, goodValDict, goodValList, lookupKey, NDArray.wf, dtypeItemsize, prodShape])⟩

/-- The durable serialiser, fed the encoder instance that
`NumpyEncoder.default` returns for an unsupported value, loops until the
recursion limit: each pass hands the instance back to `default`, which
constructs and returns yet another encoder object. -/
theorem serializeWith_numpy_encoderObj (fuel : Nat) :
    serializeWith NumpyEncoder_default fuel .encoderObj = .error .stackOverflow := by
  induction fuel with
  | zero => rfl
  | succ fuel ih => exact ih

/-- The display serialiser can never raise a `TypeError`: `StringEncoder`'s
`default` catches the base class's `TypeError` and substitutes `repr(obj)`. -/
theorem serializeWith_display_no_typeErr :
    ∀ fuel, (∀ v, serializeWith StringEncoder_default fuel v ≠ .error .typeErr) ∧
      (∀ l, serializeList StringEncoder_default fuel l ≠ .error .typeErr) ∧
      (∀ d, serializeDict StringEncoder_default fuel d ≠ .error .typeErr) := by
  intro fuel
  induction fuel with
  | zero =>
    refine ⟨fun v => ?_, fun l => ?_, fun d => ?_⟩
    · cases v <;> simp [serializeWith]
    · cases l <;> simp [serializeList]
    · cases d <;> simp [serializeDict]
  | succ fuel ih =>
    obtain ⟨ihv, ihl, ihd⟩ := ih
    refine ⟨fun v => ?_, fun l => ?_, fun d => ?_⟩
    · cases v with
      | jnull => simp [serializeWith]
      | jbool b => simp [serializeWith]
      | jint n => simp [serializeWith]
      | jstr s => simp [serializeWith]
      | jlist l =>
        have hne := ihl l
        cases h : serializeList StringEncoder_default fuel l with
        | ok ws => simp [serializeWith, h, Except.map]
        | error e =>
          rw [h] at hne
          simp only [ne_eq, Except.error.injEq] at hne
          simp only [serializeWith, h, Except.map, ne_eq, Except.error.injEq]
          exact hne
      | jdict l =>
        have hne := ihd l
        cases h : serializeDict StringEncoder_default fuel l with
        | ok ws => simp [serializeWith, h, Except.map]
        | error e =>
          rw [h] at hne
          simp only [ne_eq, Except.error.injEq] at hne
          simp only [serializeWith, h, Except.map, ne_eq, Except.error.injEq]
          exact hne
      | ndarray a => simp [serializeWith, StringEncoder_default, JSONEncoder_default]
      | other r => simp [serializeWith, StringEncoder_default, JSONEncoder_default]
      | encoderObj => simp [serializeWith, StringEncoder_default, JSONEncoder_default]
    · cases l with
      | nil => simp [serializeList]
      | cons v rest =>
        have hv := ihv v
        have hr := ihl rest
        cases h1 : serializeWith StringEncoder_default fuel v with
        | ok w =>
          cases h2 : serializeList StringEncoder_default fuel rest with
          | ok ws => simp [serializeList, h1, h2]
          | error e =>
            rw [h2] at hr
            simp only [ne_eq, Except.error.injEq] at hr
            simp only [serializeList, h1, h2, ne_eq, Except.error.injEq]
            exact hr
        | error e =>
          rw [h1] at hv
          simp only [ne_eq, Except.error.injEq] at hv
          simp only [serializeList, h1, ne_eq, Except.error.injEq]
          exact hv
    · cases d with
      | nil => simp [serializeDict]
      | cons kv rest =>
        obtain ⟨k, v⟩ := kv
        have hv := ihv v
        have hr := ihd rest
        cases h1 : serializeWith StringEncoder_default fuel v with
        | ok w =>
          cases h2 : serializeDict StringEncoder_default fuel rest with
          | ok ws => simp [serializeDict, h1, h2]
          | error e =>
            rw [h2] at hr
            simp only [ne_eq, Except.error.injEq] at hr
            simp only [serializeDict, h1, h2, ne_eq, Except.error.injEq]
            exact hr
        | error e =>
          rw [h1] at hv
          simp only [ne_eq, Except.error.injEq] at hv
          simp only [serializeDict, h1, ne_eq, Except.error.injEq]
          exact hv

/-- C4: on an unsupported value such as `set([1, 2])` the durable encoder's
`default` RETURNS a freshly constructed `json.JSONEncoder` instance instead of
raising `TypeError` (contradicting its own comment, `util.py:102`), and the
serialisation then recurses on that instance until the interpreter's
recursion limit — it never terminates normally and never raises the
documented `TypeError`.  The display encoder, by contrast, never raises and
degrades any unsupported value to its textual `repr`. -/
theorem C4_durable_returns_instead_of_raising :
    NumpyEncoder_default (.other "set([1, 2])") = .ok .encoderObj ∧
    (∀ fuel, serializeWith NumpyEncoder_default fuel (.other "set([1, 2])") =
      .error .stackOverflow) ∧
    (∀ fuel v, serializeWith StringEncoder_default fuel v ≠ .error .typeErr) ∧
    (∀ fuel r, serializeWith StringEncoder_default (fuel + 2) (.other r) = .ok (.js r)) := by
  refine ⟨rfl, fun fuel => ?_, fun fuel v => (serializeWith_display_no_typeErr fuel).1 v,
    fun fuel r => rfl⟩
  cases fuel with
  | zero => rfl
  | succ fuel => exact serializeWith_numpy_encoderObj fuel

/-- Single-key update of an association list: the written key reads back. -/
theorem lookupKey_setKey_self {α : Type} (d : List (String × α)) (k : String) (v : α) :
    lookupKey (setKey d k v) k = some v := by
  induction d with
  | nil => simp [setKey, lookupKey]
  | cons kv rest ih =>
    obtain ⟨k0, v0⟩ := kv
    by_cases h : k0 = k <;> simp [setKey, lookupKey, h, ih]

/-- Single-key update of an association list: other keys are untouched. -/
theorem lookupKey_setKey_ne {α : Type} (d : List (String × α)) (k k' : String) (v : α)
    (h : k ≠ k') : lookupKey (setKey d k v) k' = lookupKey d k' := by
  induction d with
  | nil => simp [setKey, lookupKey, h]
  | cons kv rest ih =>
    obtain ⟨k0, v0⟩ := kv
    by_cases h0 : k0 = k
    · subst h0
      simp [setKey, lookupKey, h]
    · simp [setKey, lookupKey, h0, ih]

/-- A key is absent exactly when lookup yields nothing. -/
theorem lookupKey_eq_none_iff {α : Type} (l : List (String × α)) (k : String) :
    lookupKey l k = none ↔ k ∉ l.map Prod.fst := by
  induction l with
  | nil => simp [lookupKey]
  | cons kv rest ih =>
    obtain ⟨k0, v0⟩ := kv
    by_cases h : k0 = k
    · subst h
      simp [lookupKey]
    · simp [lookupKey, h, ih, Ne.symm h]

/-- One loop iteration of `recursive_update` leaves at `k` exactly the merge
of the two sides' values. -/
theorem updateEntry_lookup_self (s : List (String × PyVal)) (k : String) (v : PyVal) :
    lookupKey (updateEntry s k v) k = some (mergeAt (lookupKey s k) v) := by
  cases hl : lookupKey s k with
  | none => cases v <;> simp [updateEntry, mergeAt, hl, lookupKey_setKey_self]
  | some w => cases w <;> cases v <;> simp [updateEntry, mergeAt, hl, lookupKey_setKey_self]

/-- One loop iteration of `recursive_update` leaves every other key alone. -/
theorem updateEntry_lookup_ne (s : List (String × PyVal)) (k : String) (v : PyVal)
    (k' : String) (h : k ≠ k') :
    lookupKey (updateEntry s k v) k' = lookupKey s k' := by
  cases hl : lookupKey s k with
  | none => cases v <;> simp [updateEntry, hl, lookupKey_setKey_ne _ _ _ _ h]
  | some w => cases w <;> cases v <;> simp [updateEntry, hl, lookupKey_setKey_ne _ _ _ _ h]

/-- C7: for every pair of dicts and every key `k` of the loaded document `o`,
the merged value at `k` is the recursive merge when both sides hold dicts and
the loaded value `o[k]` outright otherwise; keys of `d` absent from `o` keep
their default values.  (The key hypothesis is that `o`'s keys are distinct,
as they are in a Python dict.) -/
theorem C7_recursive_update_pointwise (d o : List (String × PyVal)) (k : String)
    (hnd : (o.map Prod.fst).Nodup) :
    lookupKey (recursive_update d o) k =
      match lookupKey o k with
      | some ov => some (mergeAt (lookupKey d k) ov)
      | none => lookupKey d k := by
  induction o generalizing d with
  | nil => simp [recursive_update, lookupKey]
  | cons kv rest ih =>
    obtain ⟨k0, v0⟩ := kv
    simp only [List.map_cons, List.nodup_cons] at hnd
    obtain ⟨hk0, hnd2⟩ := hnd
    simp only [recursive_update]
    rw [ih _ hnd2]
    by_cases h : k0 = k
    · subst h
      have hr : lookupKey rest k0 = none := (lookupKey_eq_none_iff _ _).mpr hk0
      simp [lookupKey, hr, updateEntry_lookup_self]
    · cases hrest : lookupKey rest k <;>
        simp [lookupKey, h, hrest, updateEntry_lookup_ne _ _ _ _ h]

/-- Witness for C7: merging `{"a": {"y": 2}, "c": "v"}` onto
`{"a": {"x": 1}, "b": 5}` merges the nested dicts at `"a"`. -/
theorem C7_witness :
    (([("a", PyVal.jdict [("y", PyVal.jint 2)]), ("c", PyVal.jstr "v")].map Prod.fst).Nodup) ∧
    lookupKey (recursive_update [("a", PyVal.jdict [("x", PyVal.jint 1)]), ("b", PyVal.jint 5)]
        [("a", PyVal.jdict [("y", PyVal.jint 2)]), ("c", PyVal.jstr "v")]) "a" =
      match lookupKey [("a", PyVal.jdict [("y", PyVal.jint 2)]), ("c", PyVal.jstr "v")] "a" with
      | some ov =>
        some (mergeAt (lookupKey [("a", PyVal.jdict [("x", PyVal.jint 1)]),
          ("b", PyVal.jint 5)] "a") ov)
      | none => lookupKey [("a", PyVal.jdict [("x", PyVal.jint 1)]), ("b", PyVal.jint 5)] "a" :=
  ⟨by decide, C7_recursive_update_pointwise _ _ "a" (by decide)⟩

/-- A successful address lookup locates an entry of the heap list. -/
theorem lookupAddr_mem (h : Heap) (a : Nat) (d : HDict) (hl : lookupAddr h a = some d) :
    (a, d) ∈ h := by
  induction h with
  | nil => cases hl
  | cons e rest ih =>
    obtain ⟨a0, d0⟩ := e
    by_cases h0 : a0 = a
    · subst h0
      simp [lookupAddr] at hl
      simp [hl]
    · simp only [lookupAddr, if_neg h0] at hl
      simp [ih hl]

/-- A successful key lookup locates an entry of the association list. -/
theorem lookupKey_mem {α : Type} (l : List (String × α)) (k : String) (v : α)
    (hl : lookupKey l k = some v) : (k, v) ∈ l := by
  induction l with
  | nil => cases hl
  | cons e rest ih =>
    obtain ⟨k0, v0⟩ := e
    by_cases h0 : k0 = k
    · subst h0
      simp [lookupKey] at hl
      simp [hl]
    · simp only [lookupKey, if_neg h0] at hl
      simp [ih hl]

/-- Entries of `setKey d k v` come from `d` or are the written pair. -/
theorem mem_setKey {α : Type} (d : List (String × α)) (k : String) (v : α)
    (kv : String × α) (hm : kv ∈ setKey d k v) : kv ∈ d ∨ kv = (k, v) := by
  induction d with
  | nil =>
    simp [setKey] at hm
    simp [hm]
  | cons e rest ih =>
    obtain ⟨k0, v0⟩ := e
    by_cases h0 : k0 = k
    · subst h0
      rw [setKey, if_pos rfl] at hm
      rcases List.mem_cons.mp hm with hm2 | hm2
      · simp [hm2]
      · simp [hm2]
    · rw [setKey, if_neg h0] at hm
      rcases List.mem_cons.mp hm with hm2 | hm2
      · simp [hm2]
      · rcases ih hm2 with hh | hh
        · simp [hh]
        · simp [hh]

/-- Entries of `setAddr h a d` come from `h` or are the written pair. -/
theorem mem_setAddr (h : Heap) (a : Nat) (d : HDict) (e : Nat × HDict)
    (hm : e ∈ setAddr h a d) : e ∈ h ∨ e = (a, d) := by
  induction h with
  | nil =>
    simp [setAddr] at hm
    simp [hm]
  | cons e0 rest ih =>
    obtain ⟨a0, d0⟩ := e0
    by_cases h0 : a0 = a
    · subst h0
      rw [setAddr, if_pos rfl] at hm
      rcases List.mem_cons.mp hm with hm2 | hm2
      · simp [hm2]
      · simp [hm2]
    · rw [setAddr, if_neg h0] at hm
      rcases List.mem_cons.mp hm with hm2 | hm2
      · simp [hm2]
      · rcases ih hm2 with hh | hh
        · simp [hh]
        · simp [hh]

/-- Writing a dict at an address makes it readable there. -/
theorem lookupAddr_setAddr_self (h : Heap) (a : Nat) (d : HDict) :
    lookupAddr (setAddr h a d) a = some d := by
  induction h with
  | nil => simp [setAddr, lookupAddr]
  | cons e rest ih =>
    obtain ⟨a0, d0⟩ := e
    by_cases h0 : a0 = a <;> simp [setAddr, lookupAddr, h0, ih]

/-- Writing a dict at one address leaves the dicts at other addresses alone. -/
theorem lookupAddr_setAddr_ne (h : Heap) (a a' : Nat) (d : HDict) (hne : a ≠ a') :
    lookupAddr (setAddr h a d) a' = lookupAddr h a' := by
  induction h with
  | nil => simp [setAddr, lookupAddr, hne]
  | cons e rest ih =>
    obtain ⟨a0, d0⟩ := e
    by_cases h0 : a0 = a
    · subst h0
      simp [setAddr, lookupAddr, hne]
    · simp [setAddr, lookupAddr, h0, ih]

/-- `noRef` is preserved when the written dict itself holds no reference to `a`. -/
theorem noRef_setAddr (h : Heap) (a s : Nat) (d : HDict) (hnr : noRef h a)
    (hd : ∀ kv ∈ d, kv.2 ≠ HVal.ref a) : noRef (setAddr h s d) a := by
  intro e he kv hkv
  rcases mem_setAddr h s d e he with hh | hh
  · exact hnr e hh kv hkv
  · subst hh
    exact hd kv hkv

/-- Frame lemma for the heap model of `recursive_update`: when no dict holds a
reference to address `a`, any call whose target is another address leaves the
dict at `a` untouched, the fold on `a` itself writes only the keys of the
snapshot it iterates, and the no-reference invariant is preserved. -/
theorem heapAux (a : Nat) : ∀ fuel,
    (∀ h s t h2 r, noRef h a → heapRecUpdate fuel h s t = some (h2, r) →
      noRef h2 a ∧ (s ≠ a → lookupAddr h2 a = lookupAddr h a)) ∧
    (∀ l h s h2, noRef h a → (∀ kv ∈ l, kv.2 ≠ HVal.ref a) →
      heapFold fuel h s l = some h2 →
      noRef h2 a ∧ (s ≠ a → lookupAddr h2 a = lookupAddr h a) ∧
      (∀ k2, k2 ∉ l.map Prod.fst → heapVal h2 a k2 = heapVal h a k2)) := by
  intro fuel
  induction fuel with
  | zero =>
    constructor
    · intro h s t h2 r _ hup
      cases hup
    · intro l h s h2 hnr _ hf
      cases l with
      | nil =>
        cases hf
        exact ⟨hnr, fun _ => rfl, fun _ _ => rfl⟩
      | cons kv rest => cases hf
  | succ fuel ih =>
    obtain ⟨ihA, ihB⟩ := ih
    have hA : ∀ h s t h2 r, noRef h a → heapRecUpdate (fuel + 1) h s t = some (h2, r) →
        noRef h2 a ∧ (s ≠ a → lookupAddr h2 a = lookupAddr h a) := by
      intro h s t h2 r hnr hup
      rw [heapRecUpdate] at hup
      cases hot : lookupAddr h t with
      | none =>
        simp only [hot] at hup
        cases hup
      | some od =>
        simp only [hot] at hup
        cases hf : heapFold fuel h s od with
        | none =>
          simp only [hf] at hup
          cases hup
        | some h3 =>
          simp only [hf] at hup
          have hods : ∀ kv ∈ od, kv.2 ≠ HVal.ref a :=
            fun kv hkv => hnr (t, od) (lookupAddr_mem h t od hot) kv hkv
          obtain ⟨h3nr, h3eq, _⟩ := ihB od h s h3 hnr hods hf
          cases hup
          exact ⟨h3nr, h3eq⟩
    refine ⟨hA, ?_⟩
    intro l h s h2 hnr hvals hf
    cases l with
    | nil =>
      cases hf
      exact ⟨hnr, fun _ => rfl, fun _ _ => rfl⟩
    | cons kv rest =>
      obtain ⟨k, v⟩ := kv
      rw [heapFold] at hf
      cases hos : lookupAddr h s with
      | none =>
        simp only [hos] at hf
        cases hf
      | some sd =>
        simp only [hos] at hf
        have hsdvals : ∀ kv2 ∈ sd, kv2.2 ≠ HVal.ref a :=
          fun kv2 hkv2 => hnr (s, sd) (lookupAddr_mem h s sd hos) kv2 hkv2
        have hrestvals : ∀ kv2 ∈ rest, kv2.2 ≠ HVal.ref a :=
          fun kv2 hkv2 => hvals kv2 (by simp [hkv2])
        have hdefault : ∀ w : HVal,
            heapFold fuel (setAddr h s (setKey sd k w)) s rest = some h2 →
            w ≠ HVal.ref a →
            noRef h2 a ∧ (s ≠ a → lookupAddr h2 a = lookupAddr h a) ∧
            (∀ k2, k2 ∉ ((k, v) :: rest).map Prod.fst →
              heapVal h2 a k2 = heapVal h a k2) := by
          intro w hf2 hw
          have hnewvals : ∀ kv2 ∈ setKey sd k w, kv2.2 ≠ HVal.ref a := by
            intro kv2 hkv2
            rcases mem_setKey sd k w kv2 hkv2 with hh | hh
            · exact hsdvals kv2 hh
            · rw [hh]
              exact hw
          have hnr2 : noRef (setAddr h s (setKey sd k w)) a :=
            noRef_setAddr h a s _ hnr hnewvals
          obtain ⟨c1, c2, c3⟩ := ihB rest _ s h2 hnr2 hrestvals hf2
          refine ⟨c1, ?_, ?_⟩
          · intro hsa
            rw [c2 hsa, lookupAddr_setAddr_ne h s a _ hsa]
          · intro k2 hk2
            simp only [List.map_cons, List.mem_cons, not_or] at hk2
            obtain ⟨hk2k, hk2r⟩ := hk2
            rw [c3 k2 hk2r]
            by_cases hsa : s = a
            · subst hsa
              simp only [heapVal, lookupAddr_setAddr_self, hos,
                lookupKey_setKey_ne sd k k2 w (fun hh => hk2k hh.symm)]
            · simp only [heapVal, lookupAddr_setAddr_ne h s a _ hsa]
        cases v with
        | atom y =>
          cases hlk : lookupKey sd k with
          | none =>
            simp only [hlk] at hf
            exact hdefault (HVal.atom y) hf (by simp)
          | some w =>
            cases w with
            | atom x =>
              simp only [hlk] at hf
              exact hdefault (HVal.atom y) hf (by simp)
            | ref ra =>
              simp only [hlk] at hf
              exact hdefault (HVal.atom y) hf (by simp)
        | ref rb =>
          cases hlk : lookupKey sd k with
          | none =>
            simp only [hlk] at hf
            exact hdefault (HVal.ref rb) hf (hvals (k, HVal.ref rb) (by simp))
          | some w =>
            cases w with
            | atom x =>
              simp only [hlk] at hf
              exact hdefault (HVal.ref rb) hf (hvals (k, HVal.ref rb) (by simp))
            | ref ra =>
              simp only [hlk] at hf
              have hra : ra ≠ a := by
                intro hh
                subst hh
                exact hnr (s, sd) (lookupAddr_mem h s sd hos) (k, HVal.ref ra)
                  (lookupKey_mem sd k _ hlk) rfl
              cases hrec : heapRecUpdate fuel h ra rb with
              | none =>
                simp only [hrec] at hf
                cases hf
              | some pr =>
                obtain ⟨h3, r3⟩ := pr
                simp only [hrec] at hf
                obtain ⟨h3nr, h3eq⟩ := ihA h ra rb h3 r3 hnr hrec
                have h3a : lookupAddr h3 a = lookupAddr h a := h3eq hra
                obtain ⟨c1, c2, c3⟩ := ihB rest h3 s h2 h3nr hrestvals hf
                refine ⟨c1, ?_, ?_⟩
                · intro hsa
                  rw [c2 hsa, h3a]
                · intro k2 hk2
                  simp only [List.map_cons, List.mem_cons, not_or] at hk2
                  obtain ⟨hk2k, hk2r⟩ := hk2
                  rw [c3 k2 hk2r]
                  simp only [heapVal, h3a]

/-- C10 counterexample: with the self-referential dict
`d = {"a": d, "z": 1}` at address 0 and `o = {"a": {"z": 2}}` at address 1,
`recursive_update(d, o)` recursively merges `o["a"] = {"z": 2}` into
`d["a"] = d` itself and thereby overwrites `d["z"]` — the key `"z"` of `d`
does not occur in `o`, yet its value changes from 1 to 2. -/
theorem C10_cex :
    heapRecUpdate 5
        [(0, [("a", HVal.ref 0), ("z", HVal.atom 1)]),
         (1, [("a", HVal.ref 2)]),
         (2, [("z", HVal.atom 2)])] 0 1 =
      some ([(0, [("a", HVal.ref 0), ("z", HVal.atom 2)]),
             (1, [("a", HVal.ref 2)]),
             (2, [("z", HVal.atom 2)])], 0) ∧
    "z" ∉ ([("a", HVal.ref 2)] : HDict).map Prod.fst ∧
    heapVal [(0, [("a", HVal.ref 0), ("z", HVal.atom 1)]),
             (1, [("a", HVal.ref 2)]),
             (2, [("z", HVal.atom 2)])] 0 "z" = some (HVal.atom 1) ∧
    heapVal [(0, [("a", HVal.ref 0), ("z", HVal.atom 2)]),
             (1, [("a", HVal.ref 2)]),
             (2, [("z", HVal.atom 2)])] 0 "z" = some (HVal.atom 2) :=
  ⟨rfl, by decide, rfl, rfl⟩

/-- C10 (amended): `recursive_update(d, o)` always hands back the very same
dict object `d` (the returned address equals `d`'s address), and — provided no
dict value in memory holds a reference to `d`, so `d` is not reachable as a
nested dict of itself or of `o` — every key of `d` that does not occur in `o`
keeps its value.  (With such aliasing the in-place recursive merge can rewrite
keys of `d` that `o` does not mention, as `C10_cex` shows.) -/
theorem C10_returns_self_and_frame (fuel : Nat) (h : Heap) (a b : Nat) (h2 : Heap) (r : Nat)
    (hup : heapRecUpdate fuel h a b = some (h2, r)) :
    r = a ∧ (noRef h a → ∀ od, lookupAddr h b = some od →
      ∀ k, k ∉ od.map Prod.fst → heapVal h2 a k = heapVal h a k) := by
  cases fuel with
  | zero => cases hup
  | succ fuel =>
    rw [heapRecUpdate] at hup
    cases hob : lookupAddr h b with
    | none =>
      simp only [hob] at hup
      cases hup
    | some od0 =>
      simp only [hob] at hup
      cases hfold : heapFold fuel h a od0 with
      | none =>
        simp only [hfold] at hup
        cases hup
      | some h3 =>
        simp only [hfold] at hup
        cases hup
        refine ⟨rfl, fun hnr od hod k hk => ?_⟩
        cases hod
        have hods : ∀ kv ∈ od0, kv.2 ≠ HVal.ref a :=
          fun kv hkv => hnr (b, od0) (lookupAddr_mem h b od0 hob) kv hkv
        exact ((heapAux a fuel).2 od0 h a h2 hnr hods hfold).2.2 k hk

/-- Witness for C10: merging `{"y": 7}` (at address 1) into `{"x": 1}` (at
address 0, referenced by nothing) returns address 0 and leaves `"x"`
untouched. -/
theorem C10_witness :
    heapRecUpdate 3 [(0, [("x", HVal.atom 1)]), (1, [("y", HVal.atom 7)])] 0 1 =
      some ([(0, [("x", HVal.atom 1), ("y", HVal.atom 7)]), (1, [("y", HVal.atom 7)])], 0) ∧
    noRef [(0, [("x", HVal.atom 1)]), (1, [("y", HVal.atom 7)])] 0 ∧
    (0 : Nat) = 0 ∧
    heapVal [(0, [("x", HVal.atom 1), ("y", HVal.atom 7)]), (1, [("y", HVal.atom 7)])] 0 "x" =
      heapVal [(0, [("x", HVal.atom 1)]), (1, [("y", HVal.atom 7)])] 0 "x" :=
  ⟨rfl, by decide,
   (C10_returns_self_and_frame 3 [(0, [("x", HVal.atom 1)]), (1, [("y", HVal.atom 7)])] 0 1
     [(0, [("x", HVal.atom 1), ("y", HVal.atom 7)]), (1, [("y", HVal.atom 7)])] 0 rfl).1,
   (C10_returns_self_and_frame 3 [(0, [("x", HVal.atom 1)]), (1, [("y", HVal.atom 7)])] 0 1
     [(0, [("x", HVal.atom 1), ("y", HVal.atom 7)]), (1, [("y", HVal.atom 7)])] 0 rfl).2
     (by decide) [("y", HVal.atom 7)] rfl "x" (by decide)⟩

/-- Full characterisation of `Pipeline.require` for a registered command whose
implementation requires nothing: a cache hit (stored value returned, nothing
executed, state unchanged) exactly when the stored value exists, is truthy and
`force` is off; a `ValueError` when the stored value has no truth value; and
otherwise execution — the implementation is entered (ghost trace grows by `c`)
and its return value is stored and returned. -/
theorem require_characterization (reg : Registry) (fuel : Nat) (st : PState) (c : String)
    (impl : CmdImpl) (hreg : lookupKey reg c = some impl) (hdeps : impl.deps = []) :
    require reg (fuel + 2) st c =
      match lookupKey st.result c with
      | some v =>
        match pyTruth v with
        | none => .error .valueErr
        | some t =>
          if !t || st.force then
            .ok ({ st with
                result := setKey st.result c impl.ret
                executed := st.executed ++ [c] }, impl.ret)
          else .ok (st, v)
      | none =>
        .ok ({ st with
            result := setKey st.result c impl.ret
            executed := st.executed ++ [c] }, impl.ret) := by
  have hexec : requireExec reg (fuel + 1) st c =
      .ok ({ st with
          result := setKey st.result c impl.ret
          executed := st.executed ++ [c] }, impl.ret) := by
    rw [requireExec]
    simp only [hreg, hdeps]
    cases fuel with
    | zero => rfl
    | succ n => rfl
  rw [require]
  cases hres : lookupKey st.result c with
  | none =>
    simp only [hres]
    exact hexec
  | some v =>
    simp only [hres]
    cases ht : pyTruth v with
    | none => rfl
    | some t =>
      cases hb : (!t || st.force) <;> simp only [hb, if_true, if_false, Bool.false_eq_true,
        if_neg, hexec]

/-- C3: under the truthiness policy, `require(c)` returns the stored value
without re-executing `c` exactly when `c` is present in the store, its stored
value is logically true and `force` is unset (the state, including the ghost
execution trace, is unchanged); in every other case — `c` absent, stored
value falsy, or `force` set — the implementation is executed (trace grows by
`c`) and its return value is stored under `c` and returned.  (When the stored
value has no defined truth value the call raises, as `not self.result[command]`
does on a multi-element array.) -/
theorem C3_require_truthiness_policy (reg : Registry) (fuel : Nat) (st : PState) (c : String)
    (impl : CmdImpl) (hreg : lookupKey reg c = some impl) (hdeps : impl.deps = []) :
    require reg (fuel + 2) st c =
      match lookupKey st.result c with
      | some v =>
        match pyTruth v with
        | none => .error .valueErr
        | some t =>
          if !t || st.force then
            .ok ({ st with
                result := setKey st.result c impl.ret
                executed := st.executed ++ [c] }, impl.ret)
          else .ok (st, v)
      | none =>
        .ok ({ st with
            result := setKey st.result c impl.ret
            executed := st.executed ++ [c] }, impl.ret) :=
  require_characterization reg fuel st c impl hreg hdeps

/-- Witness for C3 at a store holding a falsy value for `"a"`: the command
re-executes and the fresh value 7 is stored and returned. -/
theorem C3_witness :
    lookupKey [("a", CmdImpl.mk [] (PyVal.jint 7))] "a" = some (CmdImpl.mk [] (PyVal.jint 7)) ∧
    (CmdImpl.mk [] (PyVal.jint 7)).deps = [] ∧
    require [("a", CmdImpl.mk [] (PyVal.jint 7))] 2 ⟨[("a", PyVal.jint 0)], false, []⟩ "a" =
      match lookupKey (⟨[("a", PyVal.jint 0)], false, []⟩ : PState).result "a" with
      | some v =>
        match pyTruth v with
        | none => .error .valueErr
        | some t =>
          if !t || (⟨[("a", PyVal.jint 0)], false, []⟩ : PState).force then
            .ok ({ (⟨[("a", PyVal.jint 0)], false, []⟩ : PState) with
                result := setKey (⟨[("a", PyVal.jint 0)], false, []⟩ : PState).result "a"
                  (CmdImpl.mk [] (PyVal.jint 7)).ret
                executed := (⟨[("a", PyVal.jint 0)], false, []⟩ : PState).executed ++ ["a"] },
              (CmdImpl.mk [] (PyVal.jint 7)).ret)
          else .ok (⟨[("a", PyVal.jint 0)], false, []⟩, v)
      | none =>
        .ok ({ (⟨[("a", PyVal.jint 0)], false, []⟩ : PState) with
            result := setKey (⟨[("a", PyVal.jint 0)], false, []⟩ : PState).result "a"
              (CmdImpl.mk [] (PyVal.jint 7)).ret
            executed := (⟨[("a", PyVal.jint 0)], false, []⟩ : PState).executed ++ ["a"] },
          (CmdImpl.mk [] (PyVal.jint 7)).ret) :=
  ⟨rfl, rfl, C3_require_truthiness_policy [("a", CmdImpl.mk [] (PyVal.jint 7))] 0
    ⟨[("a", PyVal.jint 0)], false, []⟩ "a" (CmdImpl.mk [] (PyVal.jint 7)) rfl rfl⟩

/-- C8 counterexample: `run_show` returns `None` ("no result"); the live
`require` stores it anyway — `self.result[command] =
self.available_commands[command]()` assigns unconditionally — so the store
gains the entry `("show", None)`, which the claim says must not be added. -/
theorem C8_cex :
    require [("show", CmdImpl.mk [] PyVal.jnull)] 2 ⟨[], false, []⟩ "show" =
      .ok (⟨[("show", PyVal.jnull)], false, ["show"]⟩, PyVal.jnull) ∧
    lookupKey [("show", PyVal.jnull)] "show" = some PyVal.jnull :=
  ⟨rfl, rfl⟩

/-- C8 (amended): after a command implementation completes successfully, its
return value is stored in the result store under the command's name
unconditionally — including the explicit "no result" value `None`, which is
stored like any other value (and, being falsy, causes the command to re-run
on the next request under the truthiness policy). -/
theorem C8_store_unconditionally (reg : Registry) (fuel : Nat) (st : PState) (c : String)
    (impl : CmdImpl) (hreg : lookupKey reg c = some impl) (hdeps : impl.deps = [])
    (hmiss : lookupKey st.result c = none) :
    require reg (fuel + 2) st c =
      .ok ({ st with
          result := setKey st.result c impl.ret
          executed := st.executed ++ [c] }, impl.ret) ∧
    lookupKey (setKey st.result c impl.ret) c = some impl.ret := by
  refine ⟨?_, lookupKey_setKey_self _ _ _⟩
  rw [require_characterization reg fuel st c impl hreg hdeps, hmiss]

/-- Witness for C8 with a `None`-returning command: the entry is stored. -/
theorem C8_witness :
    lookupKey [("show", CmdImpl.mk [] PyVal.jnull)] "show" = some (CmdImpl.mk [] PyVal.jnull) ∧
    (CmdImpl.mk [] PyVal.jnull).deps = [] ∧
    lookupKey ([] : List (String × PyVal)) "show" = none ∧
    (require [("show", CmdImpl.mk [] PyVal.jnull)] 2 ⟨[], false, []⟩ "show" =
      .ok ({ (⟨[], false, []⟩ : PState) with
          result := setKey ([] : List (String × PyVal)) "show" (CmdImpl.mk [] PyVal.jnull).ret
          executed := ([] : List String) ++ ["show"] }, (CmdImpl.mk [] PyVal.jnull).ret) ∧
      lookupKey (setKey ([] : List (String × PyVal)) "show" (CmdImpl.mk [] PyVal.jnull).ret)
        "show" = some (CmdImpl.mk [] PyVal.jnull).ret) :=
  ⟨rfl, rfl, rfl, C8_store_unconditionally [("show", CmdImpl.mk [] PyVal.jnull)] 0
    ⟨[], false, []⟩ "show" (CmdImpl.mk [] PyVal.jnull) rfl rfl rfl⟩

/-- When the run loop finishes without error it has passed exactly its input
command list to `require`, in order. -/
theorem runLoop_ok_trace (reg : Registry) (fuel : Nat) :
    ∀ cs st, (runLoop reg fuel st cs).1 = none → (runLoop reg fuel st cs).2.2 = cs := by
  intro cs
  induction cs with
  | nil => intro st _; rfl
  | cons c rest ih =>
    intro st hok
    rw [runLoop] at hok ⊢
    cases hreq : require reg fuel st c with
    | error e =>
      simp only [hreq] at hok
      cases hok
    | ok p =>
      obtain ⟨st2, v⟩ := p
      simp only [hreq] at hok ⊢
      cases hrest : runLoop reg fuel st2 rest with
      | mk e q =>
        obtain ⟨st3, tr⟩ := q
        simp only [hrest] at hok ⊢
        cases hok
        have := ih st2
        rw [hrest] at this
        simp only [List.cons.injEq, true_and]
        exact this rfl

/-- Stripping the common `run_` prefix is injective on method names that carry
it, so the command names of distinct `run_*` methods are distinct. -/
theorem availableCommands_nodup (methods : List String) (h : methods.Nodup) :
    (availableCommands methods).Nodup := by
  apply List.Nodup.map_on ?_ (h.filter _)
  intro x hx y hy hxy
  have hx4 : x.data.take 4 = "run_".data := by
    have := (List.mem_filter.mp hx).2
    simpa [isRunMethod] using this
  have hy4 : y.data.take 4 = "run_".data := by
    have := (List.mem_filter.mp hy).2
    simpa [isRunMethod] using this
  have hdrop : x.data.drop 4 = y.data.drop 4 := by
    have := congrArg String.data hxy
    simpa [stripRun] using this
  have hdata : x.data = y.data := by
    calc x.data = x.data.take 4 ++ x.data.drop 4 := (List.take_append_drop 4 x.data).symm
      _ = y.data.take 4 ++ y.data.drop 4 := by rw [hx4, hy4, hdrop]
      _ = y.data := List.take_append_drop 4 y.data
  cases x
  cases y
  simp only [] at hdata
  exact congrArg String.mk hdata

/-- C9: when the parsed command list is empty or unset, `run()` falls back to
`self.available_commands` — every `run_`-prefixed method, keyed by the name
with the prefix stripped — and (in a run that completes) passes each of those
command names to `require` exactly once, rather than executing nothing. -/
theorem C9_empty_commands_run_all (reg : Registry) (methods : List String) (fuel : Nat)
    (preset : Option (List String)) (cli : List String)
    (store0 : List (String × PyVal)) (force : Bool)
    (hempty : (preset = none ∧ cli = []) ∨ preset = some [])
    (hok : (runFull reg methods fuel preset cli store0 force).err = none)
    (hnd : methods.Nodup) :
    (runFull reg methods fuel preset cli store0 force).required = availableCommands methods ∧
    (runFull reg methods fuel preset cli store0 force).required.Nodup := by
  have hcore : ∀ cs, cs = [] →
      (runCore reg fuel (availableCommands methods) cs store0 force).err = none →
      (runCore reg fuel (availableCommands methods) cs store0 force).required =
        availableCommands methods := by
    intro cs hcs hcok
    subst hcs
    rw [runCore] at hcok ⊢
    cases hrl : runLoop reg fuel ⟨store0, force, []⟩
        (if ([] : List String).isEmpty then availableCommands methods else []) with
    | mk e q =>
      obtain ⟨st3, tr⟩ := q
      simp only [hrl] at hcok ⊢
      cases e with
      | some e2 => simp at hcok
      | none =>
        simp only []
        have := runLoop_ok_trace reg fuel
          (if ([] : List String).isEmpty then availableCommands methods else [])
          ⟨store0, force, []⟩
        rw [hrl] at this
        simpa using this rfl
  rcases hempty with ⟨hp, hc⟩ | hp
  · subst hp
    subst hc
    rw [runFull] at hok ⊢
    simp only [validateChoices] at hok ⊢
    have hreq := hcore [] rfl hok
    rw [hreq]
    exact ⟨rfl, availableCommands_nodup methods hnd⟩
  · subst hp
    rw [runFull] at hok ⊢
    have hreq := hcore [] rfl hok
    rw [hreq]
    exact ⟨rfl, availableCommands_nodup methods hnd⟩

/-- Witness for C9: a pipeline with methods `run_a` and `run_show` and an
unset command list requires exactly `a` and `show`. -/
theorem C9_witness :
    ((none : Option (List String)) = none ∧ ([] : List String) = []) ∧
    (runFull [("a", CmdImpl.mk [] (PyVal.jint 1)), ("show", CmdImpl.mk [] PyVal.jnull)]
      ["run_a", "run_show"] 6 none [] [] false).err = none ∧
    (["run_a", "run_show"] : List String).Nodup ∧
    ((runFull [("a", CmdImpl.mk [] (PyVal.jint 1)), ("show", CmdImpl.mk [] PyVal.jnull)]
        ["run_a", "run_show"] 6 none [] [] false).required =
      availableCommands ["run_a", "run_show"] ∧
     (runFull [("a", CmdImpl.mk [] (PyVal.jint 1)), ("show", CmdImpl.mk [] PyVal.jnull)]
        ["run_a", "run_show"] 6 none [] [] false).required.Nodup) :=
  ⟨⟨rfl, rfl⟩, rfl, by decide,
    C9_empty_commands_run_all _ ["run_a", "run_show"] 6 none [] [] false
      (Or.inl ⟨rfl, rfl⟩) rfl (by decide)⟩

/-- `ValidateChoices` fails on the first requested name that is not a
registered command, reporting that name. -/
theorem validateChoices_finds_offender (metavar : List String) :
    ∀ cli, (∃ r ∈ cli, r ∉ metavar) →
      ∃ n, validateChoices metavar cli = .error (.assertionErr n) ∧ n ∈ cli ∧ n ∉ metavar := by
  intro cli
  induction cli with
  | nil => rintro ⟨r, hr, _⟩; cases hr
  | cons item rest ih =>
    rintro ⟨r, hr, hrn⟩
    by_cases hitem : item ∈ metavar
    · have hrrest : r ∈ rest := by
        rcases List.mem_cons.mp hr with hh | hh
        · subst hh; exact absurd hitem hrn
        · exact hh
      obtain ⟨n, hn, hnm, hnn⟩ := ih ⟨r, hrrest, hrn⟩
      exact ⟨n, by simpa [validateChoices, hitem] using hn, by simp [hnm], hnn⟩
    · exact ⟨item, by simp [validateChoices, hitem], by simp, hitem⟩

/-- `ValidateChoices` can only fail with an assertion error. -/
theorem validateChoices_err_shape (metavar : List String) :
    ∀ cli e, validateChoices metavar cli = .error e → ∃ n, e = .assertionErr n := by
  intro cli
  induction cli with
  | nil => intro e he; cases he
  | cons item rest ih =>
    intro e he
    by_cases hitem : item ∈ metavar
    · exact ih e (by simpa [validateChoices, hitem] using he)
    · simp only [validateChoices, if_neg hitem, Except.error.injEq] at he
      exact ⟨item, he.symm⟩

/-- A `KeyError` escaping `require` always names a command absent from the
registry: it is raised only by the `self.available_commands[command]` lookup. -/
theorem require_keyErr (reg : Registry) : ∀ fuel,
    (∀ st c n, require reg fuel st c = .error (.keyErr n) → lookupKey reg n = none) ∧
    (∀ st c n, requireExec reg fuel st c = .error (.keyErr n) → lookupKey reg n = none) ∧
    (∀ st l n, requireDeps reg fuel st l = .error (.keyErr n) → lookupKey reg n = none) := by
  intro fuel
  induction fuel with
  | zero =>
    refine ⟨fun st c n h => ?_, fun st c n h => ?_, fun st l n h => ?_⟩
    · cases h
    · cases h
    · cases l with
      | nil => cases h
      | cons d rest => cases h
  | succ fuel ih =>
    obtain ⟨ihr, ihe, ihd⟩ := ih
    have hexec : ∀ st c n, requireExec reg (fuel + 1) st c = .error (.keyErr n) →
        lookupKey reg n = none := by
      intro st c n h
      rw [requireExec] at h
      cases hl : lookupKey reg c with
      | none =>
        simp only [hl, Except.error.injEq, PyErr.keyErr.injEq] at h
        rw [← h]
        exact hl
      | some impl =>
        simp only [hl] at h
        cases hd : requireDeps reg fuel { st with executed := st.executed ++ [c] } impl.deps with
        | error e =>
          simp only [hd] at h
          cases h
          exact ihd _ _ _ hd
        | ok st2 =>
          simp only [hd] at h
          cases h
    refine ⟨fun st c n h => ?_, hexec, fun st l n h => ?_⟩
    · rw [require] at h
      cases hres : lookupKey st.result c with
      | none =>
        simp only [hres] at h
        exact ihe _ _ _ h
      | some v =>
        simp only [hres] at h
        cases ht : pyTruth v with
        | none => simp only [ht] at h; cases h
        | some t =>
          simp only [ht] at h
          cases hb : (!t || st.force) with
          | true =>
            rw [hb] at h
            simp only [if_true] at h
            exact ihe _ _ _ h
          | false =>
            rw [hb] at h
            simp only [Bool.false_eq_true, if_false] at h
            cases h
    · cases l with
      | nil => cases h
      | cons d rest =>
        rw [requireDeps] at h
        cases hq : require reg fuel st d with
        | error e =>
          simp only [hq] at h
          cases h
          exact ihr _ _ _ hq
        | ok p =>
          obtain ⟨st2, v⟩ := p
          simp only [hq] at h
          exact ihd _ _ _ h

/-- A `KeyError` aborting the run loop names a command absent from the registry. -/
theorem runLoop_keyErr (reg : Registry) (fuel : Nat) :
    ∀ cs st n, (runLoop reg fuel st cs).1 = some (.keyErr n) → lookupKey reg n = none := by
  intro cs
  induction cs with
  | nil => intro st n h; cases h
  | cons c rest ih =>
    intro st n h
    rw [runLoop] at h
    cases hreq : require reg fuel st c with
    | error e =>
      simp only [hreq] at h
      cases h
      exact (require_keyErr reg fuel).1 _ _ _ hreq
    | ok p =>
      obtain ⟨st2, v⟩ := p
      simp only [hreq] at h
      cases hrest : runLoop reg fuel st2 rest with
      | mk e q =>
        obtain ⟨st3, tr⟩ := q
        simp only [hrest] at h
        have := ih st2 n
        rw [hrest] at this
        exact this h

/-- C6 counterexample: with requested commands `a` and `b` both registered but
`b` requiring the unknown name `zzz` during its execution, the CLI validation
passes, `a` executes fully, and only then does the run abort with
`KeyError("zzz")` — another requested command has already executed, though the
result file is still not written.  (The claim asserts the abort happens before
any other requested command executes.) -/
theorem C6_cex :
    runFull [("a", CmdImpl.mk [] (PyVal.jint 1)), ("b", CmdImpl.mk ["zzz"] (PyVal.jint 2))]
        ["run_a", "run_b"] 9 none ["a", "b"] [] false =
      ⟨some (.keyErr "zzz"), ⟨[("a", PyVal.jint 1)], false, ["a"]⟩, false, ["a", "b"]⟩ ∧
    "zzz" ∉ availableCommands ["run_a", "run_b"] ∧
    ("a" : String) ∈ (⟨[("a", PyVal.jint 1)], false, ["a"]⟩ : PState).executed :=
  ⟨rfl, by decide, by decide⟩

/-- C6 (amended): an unknown name among the CLI-requested commands aborts
during argument validation — reporting the offending name, before any command
executes, with the result file untouched; an unknown name required while a
command runs aborts the run at that point with a `KeyError` naming it
(commands earlier in the requested list have already executed by then); in
every aborted run the result file is neither written nor modified. -/
theorem C6_unknown_name_aborts (reg : Registry) (methods : List String) (fuel : Nat)
    (cli : List String) (store0 : List (String × PyVal)) (force : Bool) :
    ((∃ r ∈ cli, r ∉ availableCommands methods) →
      ∃ n, runFull reg methods fuel none cli store0 force =
        ⟨some (.assertionErr n), ⟨store0, force, []⟩, false, []⟩ ∧
        n ∈ cli ∧ n ∉ availableCommands methods) ∧
    (∀ preset n, (runFull reg methods fuel preset cli store0 force).err =
        some (.keyErr n) → lookupKey reg n = none) ∧
    (∀ preset, (runFull reg methods fuel preset cli store0 force).err ≠ none →
      (runFull reg methods fuel preset cli store0 force).dumped = false) := by
  have hcore : ∀ cs n, (runCore reg fuel (availableCommands methods) cs store0 force).err =
      some (.keyErr n) → lookupKey reg n = none := by
    intro cs n h
    rw [runCore] at h
    cases hrl : runLoop reg fuel ⟨store0, force, []⟩
        (if cs.isEmpty then availableCommands methods else cs) with
    | mk e q =>
      obtain ⟨st3, tr⟩ := q
      simp only [hrl] at h
      cases e with
      | none => simp at h
      | some e2 =>
        simp only [] at h
        have := runLoop_keyErr reg fuel
          (if cs.isEmpty then availableCommands methods else cs) ⟨store0, force, []⟩ n
        rw [hrl] at this
        apply this
        simpa using h
  have hdump : ∀ cs, (runCore reg fuel (availableCommands methods) cs store0 force).err ≠
      none → (runCore reg fuel (availableCommands methods) cs store0 force).dumped = false := by
    intro cs h
    rw [runCore] at h ⊢
    cases hrl : runLoop reg fuel ⟨store0, force, []⟩
        (if cs.isEmpty then availableCommands methods else cs) with
    | mk e q =>
      obtain ⟨st3, tr⟩ := q
      simp only [hrl] at h ⊢
      cases e with
      | none => simp at h
      | some e2 => simp
  refine ⟨?_, ?_, ?_⟩
  · intro hbad
    obtain ⟨n, hv, hmem, hnot⟩ := validateChoices_finds_offender (availableCommands methods)
      cli hbad
    refine ⟨n, ?_, hmem, hnot⟩
    rw [runFull, hv]
  · intro preset n h
    cases preset with
    | none =>
      rw [runFull] at h
      cases hv : validateChoices (availableCommands methods) cli with
      | error e =>
        rw [hv] at h
        simp only [] at h
        obtain ⟨m, hm⟩ := validateChoices_err_shape _ cli e hv
        subst hm
        simp at h
      | ok u =>
        cases u
        rw [hv] at h
        exact hcore cli n h
    | some cs =>
      rw [runFull] at h
      exact hcore cs n h
  · intro preset h
    cases preset with
    | none =>
      rw [runFull] at h ⊢
      cases hv : validateChoices (availableCommands methods) cli with
      | error e => rfl
      | ok u =>
        cases u
        rw [hv] at h
        exact hdump cli h
    | some cs =>
      rw [runFull] at h ⊢
      exact hdump cs h

/-- Witness for C6 at a run requesting the unknown command `bad`. -/
theorem C6_witness :
    (∃ r ∈ ["bad"], r ∉ availableCommands ["run_a"]) ∧
    (∃ n, runFull [("a", CmdImpl.mk [] (PyVal.jint 1))] ["run_a"] 5 none ["bad"] [] false =
      ⟨some (.assertionErr n), ⟨[], false, []⟩, false, []⟩ ∧
      n ∈ ["bad"] ∧ n ∉ availableCommands ["run_a"]) :=
  ⟨by decide, (C6_unknown_name_aborts [("a", CmdImpl.mk [] (PyVal.jint 1))] ["run_a"] 5
    ["bad"] [] false).1 (by decide)⟩

/-- C2 counterexample: the legacy pipeline performs no hash comparison at all.
A result file from a previous run with configuration "A" is loaded under the
changed configuration "B" (different file bytes, hence a different content
hash for any hash function): the stale entry `foo = 1` is retained rather than
discarded — only the `configuration` entry is overwritten — and `_execute`
returns it as a cache hit without running the implementation (which would
have produced 99). -/
theorem C2_cex :
    load_result (some [("foo", PyVal.jint 1), ("configuration", PyVal.jstr "A")])
        (PyVal.jstr "B") =
      [("foo", PyVal.jint 1), ("configuration", PyVal.jstr "B")] ∧
    execOld [("foo", PyVal.jint 99)] false
        [("foo", PyVal.jint 1), ("configuration", PyVal.jstr "B")] "foo" =
      .ok ([("foo", PyVal.jint 1), ("configuration", PyVal.jstr "B")], PyVal.jint 1, false) ∧
    (PyVal.jstr "A" : PyVal) ≠ PyVal.jstr "B" :=
  ⟨rfl, rfl, by simp⟩

/-- C2 (amended): the stored value of a registered command `c` is reused as a
cache hit whenever `c` is present in the loaded store and `force` is not set,
regardless of any change to the configuration or its hash; loading never
discards stale entries — every entry of the previous store other than
`configuration` is kept unchanged, and the `configuration` entry is
overwritten with the current configuration. -/
theorem C2_no_hash_gate (file : Option (List (String × PyVal))) (cfg : PyVal)
    (reg st : List (String × PyVal)) (c k : String) (v r : PyVal) :
    (k ≠ "configuration" →
      lookupKey (load_result file cfg) k =
        lookupKey (match file with | some l => l | none => []) k) ∧
    lookupKey (load_result file cfg) "configuration" = some cfg ∧
    (lookupKey reg c = some r → lookupKey st c = some v →
      execOld reg false st c = .ok (st, v, false)) := by
  refine ⟨?_, ?_, ?_⟩
  · intro hk
    exact lookupKey_setKey_ne _ _ _ _ (fun hh => hk hh.symm)
  · exact lookupKey_setKey_self _ _ _
  · intro hr hv
    rw [execOld]
    simp only [hr, hv]

/-- Witness for C2 at the stale store of `C2_cex`. -/
theorem C2_witness :
    ("foo" : String) ≠ "configuration" ∧
    lookupKey [("foo", PyVal.jint 99)] "foo" = some (PyVal.jint 99) ∧
    lookupKey [("foo", PyVal.jint 1), ("configuration", PyVal.jstr "B")] "foo" =
      some (PyVal.jint 1) ∧
    (lookupKey (load_result (some [("foo", PyVal.jint 1), ("configuration", PyVal.jstr "A")])
        (PyVal.jstr "B")) "foo" =
      lookupKey (match some [("foo", PyVal.jint 1), ("configuration", PyVal.jstr "A")] with
        | some l => l
        | none => ([] : List (String × PyVal))) "foo" ∧
     lookupKey (load_result (some [("foo", PyVal.jint 1), ("configuration", PyVal.jstr "A")])
        (PyVal.jstr "B")) "configuration" = some (PyVal.jstr "B") ∧
     execOld [("foo", PyVal.jint 99)] false
        [("foo", PyVal.jint 1), ("configuration", PyVal.jstr "B")] "foo" =
      .ok ([("foo", PyVal.jint 1), ("configuration", PyVal.jstr "B")], PyVal.jint 1, false)) := by
  refine ⟨by decide, rfl, rfl, ?_, ?_, ?_⟩
  · exact (C2_no_hash_gate (some [("foo", PyVal.jint 1), ("configuration", PyVal.jstr "A")])
      (PyVal.jstr "B") [("foo", PyVal.jint 99)]
      [("foo", PyVal.jint 1), ("configuration", PyVal.jstr "B")] "foo" "foo"
      (PyVal.jint 1) (PyVal.jint 99)).1 (by decide)
  · exact (C2_no_hash_gate (some [("foo", PyVal.jint 1), ("configuration", PyVal.jstr "A")])
      (PyVal.jstr "B") [("foo", PyVal.jint 99)]
      [("foo", PyVal.jint 1), ("configuration", PyVal.jstr "B")] "foo" "foo"
      (PyVal.jint 1) (PyVal.jint 99)).2.1
  · exact (C2_no_hash_gate (some [("foo", PyVal.jint 1), ("configuration", PyVal.jstr "A")])
      (PyVal.jstr "B") [("foo", PyVal.jint 99)]
      [("foo", PyVal.jint 1), ("configuration", PyVal.jstr "B")] "foo" "foo"
      (PyVal.jint 1) (PyVal.jint 99)).2.2 rfl rfl

/-- C5: `save_result` runs `mkdir_p` on the output FILE path itself rather
than on its parent directory (contrast the legacy `_dump_result`, which
correctly uses `path.dirname`).  On a fresh tree it therefore creates a
DIRECTORY named `results/out.json` and the subsequent open-for-write fails
with `EISDIR`; if the result file already exists from an earlier run,
`makedirs` fails with `EEXIST` instead.  A dump can never succeed, while the
claim (and the spec) requires the parents to be created and the store to be
written to the file. -/
theorem C5_save_result_mkdirs_file_path :
    mkdir_p ⟨[], []⟩ ["results", "out.json"] =
      .ok ⟨[["results"], ["results", "out.json"]], []⟩ ∧
    save_result ⟨[], []⟩ (some ["results", "out.json"]) "store" = .error .eisdir ∧
    save_result ⟨[], [(["results", "out.json"], "old")]⟩ (some ["results", "out.json"])
      "store" = .error .eexist :=
  ⟨rfl, rfl, rfl⟩
